import Mathlib

/-!
Verification of the `bel` TypeScript-definition generator (Rust sources:
`src/extract.rs`, `src/generator.rs`, `src/enums.rs`, `src/typescript.rs`,
`src/lib.rs`) against its natural-language specification.

The development shallowly embeds the program: each Rust function becomes a
Lean function of the same name operating on a Lean model of the relevant
`syn` syntax-tree fragments.  The external parser (`syn::parse_file`) is an
explicit oracle parameter, as the specification treats it as an external
collaborator.  `std::collections::HashMap` is modelled by its entry list
together with an explicitly unspecified iteration order (any permutation of
the final last-write-wins entries).
-/

namespace Bel

/-- Decidable equality for `Except`, used to evaluate the embedded
fallible functions on concrete inputs. -/
instance {ε α : Type} [DecidableEq ε] [DecidableEq α] : DecidableEq (Except ε α) :=
  fun a b =>
    match a, b with
    | .ok x, .ok y =>
      match decEq x y with
      | isTrue h => isTrue (by rw [h])
      | isFalse h => isFalse (by intro hc; cases hc; exact h rfl)
    | .error x, .error y =>
      match decEq x y with
      | isTrue h => isTrue (by rw [h])
      | isFalse h => isFalse (by intro hc; cases hc; exact h rfl)
    | .ok _, .error _ => isFalse (by intro hc; cases hc)
    | .error _, .ok _ => isFalse (by intro hc; cases hc)

/-! ### Model of the `syn` syntax-tree fragments the program consumes -/

mutual
/-- Model of `syn::Type`.  The source only distinguishes `Type::Path`
(whose segment list it inspects) from every other shape (`_ => "any"`),
so all non-path shapes are collapsed into `otherShape`. -/
inductive RustType : Type where
  | path (segments : List PathSegment)
  | otherShape

/-- Model of `syn::PathSegment`: an identifier plus its path arguments. -/
inductive PathSegment : Type where
  | mk (ident : String) (arguments : PathArguments)

/-- Model of `syn::PathArguments`. -/
inductive PathArguments : Type where
  | noArgs
  | angleBracketed (args : List GenericArgument)
  | parenthesized

/-- Model of `syn::GenericArgument`: a type argument, or any other kind
of argument (lifetime, const, ...), which the source never destructures. -/
inductive GenericArgument : Type where
  | typeArg (ty : RustType)
  | otherArg
end

/-- The identifier of a path segment. -/
def PathSegment.ident : PathSegment → String
  | .mk i _ => i

/-- The path arguments of a path segment. -/
def PathSegment.arguments : PathSegment → PathArguments
  | .mk _ a => a

/-- Model of `syn::Attribute`.  `path` is `some s` when the attribute path
is the single identifier `s` (so `attr.path().is_ident(s)` holds); it is
`none` for multi-segment paths.  `name_value_str` is `some v` when
`attr.meta.require_name_value()` succeeds and the value is a string
literal with value `v`.  `debug_text` is the `format!("\x7b:?\x7d", attr)`
rendering the source substring-searches. -/
structure Attr where
  path : Option String
  name_value_str : Option String
  debug_text : String
deriving DecidableEq

/-- Model of `syn::Field`: optional name, type, attributes. -/
structure RustField where
  ident : Option String
  ty : RustType
  attrs : List Attr

/-- Model of `syn::ItemStruct` (name, fields, attributes). -/
structure ItemStruct where
  ident : String
  fields : List RustField
  attrs : List Attr

/-- Model of `syn::FnArg`: the receiver (`self`/`&self`/...) or a typed
parameter.  The declared parameter name (`pat_ident`) is carried so that
theorems can state that extraction discards it. -/
inductive FnArg where
  | receiver
  | typed (pat_ident : String) (ty : RustType)

/-- Model of `syn::TraitItemFn`: the method signature pieces the source
reads.  `output` is `some ty` for `ReturnType::Type(_, ty)` and `none`
for `ReturnType::Default`. -/
structure TraitItemFn where
  ident : String
  inputs : List FnArg
  output : Option RustType
  attrs : List Attr

/-- Model of `syn::TraitItem`: a function member, or any other member
kind (const, type, ...), which the source silently skips. -/
inductive TraitItem where
  | fnItem (f : TraitItemFn)
  | otherMember

/-- Model of `syn::ItemTrait`. -/
structure ItemTrait where
  ident : String
  items : List TraitItem
  attrs : List Attr

/-- Model of `syn::Lit` restricted to what `extract_variant_value` reads:
string literals, integer literals (carried as the numeric value of their
base-10 digits, which for a `syn` integer literal is always nonnegative),
and every other literal kind. -/
inductive RustLit where
  | strLit (value : String)
  | intLit (digits_value : Nat)
  | otherLit

/-- Model of `syn::Expr` restricted to what `extract_variant_value` reads:
a literal, a path (with `get_ident()` result), or any other expression. -/
inductive RustExpr where
  | litExpr (lit : RustLit)
  | pathExpr (get_ident : Option String)
  | otherExpr

/-- Model of the payload of a `syn::Variant` (`Fields`). -/
inductive VariantFields where
  | unitFields
  | unnamedFields (tys : List RustType)
  | namedFields (fields : List RustField)

/-- Model of `syn::Variant`: name, payload, optional discriminant,
attributes. -/
structure EnumVariant where
  ident : String
  payload : VariantFields
  discriminant : Option RustExpr
  attrs : List Attr

/-- Model of `syn::ItemEnum`. -/
structure ItemEnum where
  ident : String
  variants : List EnumVariant
  attrs : List Attr

/-- Model of `syn::Item` restricted to the arms `Extractor::extract`
matches; every other item kind is `otherItem`. -/
inductive Item where
  | structItem (s : ItemStruct)
  | enumItem (e : ItemEnum)
  | traitItem (t : ItemTrait)
  | otherItem

/-- Model of `syn::File`: the item list of a successfully parsed file. -/
structure SourceFile where
  items : List Item

/-! ### Character-level models of the Rust `str` operations used

`String.splitOn`/`String.trim` do not reduce well inside the kernel, so
the relevant Rust `str` operations are modelled on `List Char`. -/

/-- Model of `str::starts_with` on character lists. -/
def starts_with : List Char → List Char → Bool
  | _, [] => true
  | [], _ :: _ => false
  | h :: hs, p :: ps => h == p && starts_with hs ps

/-- Model of `str::contains(pat)` (substring search) on character lists. -/
def contains_sub (pat : List Char) : List Char → Bool
  | [] => pat.isEmpty
  | h :: hs => starts_with (h :: hs) pat || contains_sub pat hs

/-- Model of `str::trim` (drop leading and trailing whitespace).  Rust
trims Unicode `White_Space`; `Char.isWhitespace` agrees on the ASCII
whitespace the program's inputs exercise. -/
def rust_trim (s : String) : String :=
  String.mk (((s.toList.dropWhile Char.isWhitespace).reverse.dropWhile Char.isWhitespace).reverse)

/-- Model of `name.split('_')` producing the underscore-separated parts
as character lists; mirrors Rust `str::split` (so `"".split('_')` is
`[""]` and separators at the ends produce empty parts). -/
def split_underscore : List Char → List (List Char)
  | [] => [[]]
  | c :: rest =>
    match split_underscore rest with
    | [] => [[]]
    | h :: t => if c = '_' then [] :: h :: t else (c :: h) :: t

/-! ### extract.rs: options and the extracted TypeScript model -/

/-- `ExtractOptions` from `src/extract.rs`.  The extractor stores these
options but never reads them. -/
structure ExtractOptions where
  embed_structs : Bool
  follow_structs : Bool
  no_anon_structs : Bool
  sort_alphabetically : Bool
deriving DecidableEq

/-- `ExtractOptions::default()`. -/
def ExtractOptions.default' : ExtractOptions := ⟨false, false, false, false⟩

/-- `TypescriptParam` from `src/extract.rs`. -/
structure TypescriptParam where
  name : String
  ts_type : String
deriving DecidableEq

/-- `TypescriptMethod` from `src/extract.rs`. -/
structure TypescriptMethod where
  name : String
  params : List TypescriptParam
  return_type : String
  doc : Option String
deriving DecidableEq

/-- `TypescriptField` from `src/extract.rs`. -/
structure TypescriptField where
  name : String
  ts_type : String
  optional : Bool
  doc : Option String
deriving DecidableEq

/-- `TypescriptType` from `src/extract.rs`. -/
inductive TypescriptType where
  | Interface (name : String) (fields : List TypescriptField) (doc : Option String)
  | Enum (name : String) (variants : List String) (doc : Option String)
  | Trait (name : String) (methods : List TypescriptMethod) (doc : Option String)
deriving DecidableEq

/-- `Extractor::rust_to_typescript_type` from `src/extract.rs`: the fixed
primitive table (each disjunction groups the `|` patterns of one Rust
match arm); unmatched names fall through unchanged. -/
def rust_to_typescript_type (rust_type : String) : String :=
  if rust_type = "String" ∨ rust_type = "str" then "string"
  else if rust_type = "i8" ∨ rust_type = "i16" ∨ rust_type = "i32" ∨ rust_type = "i64"
      ∨ rust_type = "u8" ∨ rust_type = "u16" ∨ rust_type = "u32" ∨ rust_type = "u64"
      ∨ rust_type = "f32" ∨ rust_type = "f64" ∨ rust_type = "isize" ∨ rust_type = "usize" then "number"
  else if rust_type = "bool" then "boolean"
  else if rust_type = "Vec" then "Array"
  else if rust_type = "Option" then ""
  else rust_type

/-- `Extractor::convert_type` from `src/extract.rs`.  The source reads
`path.segments.last()`; here the last segment is reached by discarding
leading segments.  `Option`/`Vec` with exactly one angle-bracketed type
argument recurse into the argument; every other path falls through to
`rust_to_typescript_type`; every non-path shape is `"any"`. -/
def convert_type : RustType → String
  | .path [] => "any"
  | .path [PathSegment.mk tyName (.angleBracketed [.typeArg inner])] =>
      if tyName = "Option" then convert_type inner
      else if tyName = "Vec" then convert_type inner ++ "[]"
      else rust_to_typescript_type tyName
  | .path [PathSegment.mk tyName _] => rust_to_typescript_type tyName
  | .path (_ :: s :: rest) => convert_type (.path (s :: rest))
  | .otherShape => "any"

/-- The capitalised append of one underscore-separated part, mirroring the
loop body of `Extractor::convert_field_name`: empty parts are skipped, a
nonempty part is appended with its first character uppercased.
`Char.toUpper` models `char::to_uppercase().next().unwrap_or(first)`
(they agree on ASCII). -/
def camel_append (acc : List Char) (part : List Char) : List Char :=
  match part with
  | [] => acc
  | c :: cs => acc ++ (c.toUpper :: cs)

/-- `Extractor::convert_field_name` from `src/extract.rs`: split on `'_'`;
a single part is returned unchanged; otherwise the first part seeds the
result and each later nonempty part is appended capitalised. -/
def convert_field_name (name : String) : String :=
  match split_underscore name.toList with
  | [] => name
  | [_] => name
  | p0 :: rest => String.mk (rest.foldl camel_append p0)

/-- The first half of `Extractor::is_optional_field`: the field type is a
path whose last segment is named `Option` (the argument count is not
inspected). -/
def is_option_path : RustType → Bool
  | .path segments =>
    match segments.getLast? with
    | some seg => seg.ident == "Option"
    | none => false
  | .otherShape => false

/-- The second half of `Extractor::is_optional_field`: some attribute has
path `serde` and its debug text contains `skip_serializing_if`. -/
def has_skip_serializing_attr (attrs : List Attr) : Bool :=
  attrs.any (fun a => a.path == some "serde" && contains_sub "skip_serializing_if".toList a.debug_text.toList)

/-- `Extractor::is_optional_field` from `src/extract.rs`. -/
def is_optional_field (field : RustField) : Bool :=
  is_option_path field.ty || has_skip_serializing_attr field.attrs

/-- `Extractor::extract_doc` from `src/extract.rs`: the first attribute
with path `doc` that is a name-value with a string-literal value yields
that value trimmed. -/
def extract_doc (attrs : List Attr) : Option String :=
  attrs.findSome? (fun a =>
    if a.path = some "doc" then a.name_value_str.map rust_trim else none)

/-- The `TypescriptField` built for one named struct field in
`Extractor::extract_struct`. -/
def extract_field (f : RustField) (field_name : String) : TypescriptField :=
  { name := convert_field_name field_name
    ts_type := convert_type f.ty
    optional := is_optional_field f
    doc := extract_doc f.attrs }

/-- `Extractor::extract_struct` from `src/extract.rs`: the name/value pair
inserted into the result map.  Fields without a name (tuple structs) are
skipped.  The source's `Result` return is always `Ok`. -/
def extract_struct (item : ItemStruct) : String × TypescriptType :=
  (item.ident,
   .Interface item.ident
     (item.fields.filterMap (fun f => f.ident.map (extract_field f)))
     (extract_doc item.attrs))

/-- The parameter loop of `Extractor::extract_trait`: `i` enumerates ALL
inputs (`method.sig.inputs.iter().enumerate()`), the receiver included;
only typed inputs produce a parameter, named `"arg"` + the index `i`. -/
def extract_params_from (i : Nat) : List FnArg → List TypescriptParam
  | [] => []
  | .receiver :: rest => extract_params_from (i + 1) rest
  | .typed _ ty :: rest =>
      ⟨"arg" ++ toString i, convert_type ty⟩ :: extract_params_from (i + 1) rest

/-- The full parameter list of one trait method. -/
def extract_params (inputs : List FnArg) : List TypescriptParam :=
  extract_params_from 0 inputs

/-- The `TypescriptMethod` built for one trait function in
`Extractor::extract_trait`. -/
def extract_method (m : TraitItemFn) : TypescriptMethod :=
  { name := m.ident
    params := extract_params m.inputs
    return_type := match m.output with
      | some ty => convert_type ty
      | none => "void"
    doc := extract_doc m.attrs }

/-- `Extractor::extract_trait` from `src/extract.rs`: only function
members are kept. -/
def extract_trait (item : ItemTrait) : String × TypescriptType :=
  (item.ident,
   .Trait item.ident
     (item.items.filterMap (fun i =>
        match i with
        | .fnItem m => some (extract_method m)
        | .otherMember => none))
     (extract_doc item.attrs))

/-- `Extractor::extract_enum` from `src/extract.rs`: only the variant
NAMES are collected; payloads and discriminants are never read. -/
def extract_enum (item : ItemEnum) : String × TypescriptType :=
  (item.ident, .Enum item.ident (item.variants.map (·.ident)) (extract_doc item.attrs))

/-- The name/value pair `Extractor::extract` inserts for one item, if
any: structs, enums and traits are extracted, everything else skipped. -/
def extracted_entry : Item → Option (String × TypescriptType)
  | .structItem s => some (extract_struct s)
  | .enumItem e => some (extract_enum e)
  | .traitItem t => some (extract_trait t)
  | .otherItem => none

/-- The chronological sequence of `self.result.insert(name, ts_type)`
calls performed by `Extractor::extract` over a parsed file's items. -/
def extract_items (items : List Item) : List (String × TypescriptType) :=
  items.filterMap extracted_entry

/-- `Extractor::extract` from `src/extract.rs`, with `syn::parse_file` as
an explicit oracle.  On parse failure the error propagates (`?`) and no
mapping is produced; on success the insert sequence is returned (the
`HashMap` it induces is `last_write_wins` of it, below).  The options are
stored by the extractor but never read. -/
def Extractor.extract (_options : ExtractOptions)
    (parse : String → Except String SourceFile) (source : String) :
    Except String (List (String × TypescriptType)) :=
  match parse source with
  | .ok tree => .ok (extract_items tree.items)
  | .error e => .error e

/-! ### The `HashMap` model

`std::collections::HashMap` keeps one value per key (later inserts
overwrite) and iterates in an order that depends on the per-process hash
seed — it is NOT insertion order.  `insert_lww`/`last_write_wins` give
the final entry set (keyed one entry per key); `IsEnumOf` says a list is
a possible iteration order of that final state: some permutation of it. -/

/-- One `HashMap::insert`: replace the value if the key is present,
otherwise add the entry. -/
def insert_lww (m : List (String × α)) (k : String) (v : α) : List (String × α) :=
  if m.any (fun p => p.1 == k) then
    m.map (fun p => if p.1 == k then (k, v) else p)
  else
    m ++ [(k, v)]

/-- The `HashMap` state after a sequence of inserts. -/
def last_write_wins (history : List (String × α)) : List (String × α) :=
  history.foldl (fun m p => insert_lww m p.1 p.2) []

/-- `seq` is a possible iteration order of the `HashMap` produced by the
insert sequence `history`. -/
def IsEnumOf (seq history : List (String × TypescriptType)) : Prop :=
  seq.Perm (last_write_wins history)

/-- `HashMap::get` on an entry list (first entry with the key). -/
def hm_get (m : List (String × α)) (k : String) : Option α :=
  (m.find? (fun p => p.1 == k)).map Prod.snd

/-! ### generator.rs: options and rendering -/

/-- `GeneratorOptions` from `src/generator.rs`; `ns` models the
`namespace` field (a Lean keyword). -/
structure GeneratorOptions where
  ns : Option String
  preamble : Option String
  generate_enums_as_sum_types : Bool
  sort_alphabetically : Bool
deriving DecidableEq

/-- `GeneratorOptions::default()`. -/
def GeneratorOptions.default' : GeneratorOptions :=
  ⟨none, some "// generated using bel\n// DO NOT MODIFY", false, false⟩

/-- `Generator::write_doc`: three `writeln!` calls when a doc string is
present. -/
def write_doc (doc : Option String) : String :=
  match doc with
  | some d => "/**\n * " ++ d ++ "\n */\n"
  | none => ""

/-- The single field line of `Generator::generate_field` (without the
field's doc block). -/
def field_line (f : TypescriptField) : String :=
  "    " ++ f.name ++ (if f.optional then "?" else "") ++ ": " ++ f.ts_type ++ "\n"

/-- `Generator::generate_field` from `src/generator.rs`. -/
def generate_field (f : TypescriptField) : String :=
  write_doc f.doc ++ field_line f

/-- `Generator::generate_method` from `src/generator.rs`. -/
def generate_method (m : TypescriptMethod) : String :=
  write_doc m.doc ++ "    " ++ m.name ++ "("
    ++ String.intercalate ", " (m.params.map (fun p => p.name ++ ": " ++ p.ts_type))
    ++ "): " ++ m.return_type ++ "\n"

/-- `Generator::generate_enum` from `src/generator.rs` (ordinal mode):
every variant is rendered as its name `= ` its zero-based position. -/
def generate_enum (name : String) (variants : List String) : String :=
  "export enum " ++ name ++ " \x7b\n"
    ++ String.join (variants.enum.map (fun p => "    " ++ p.2 ++ " = " ++ toString p.1 ++ ",\n"))
    ++ "\x7d\n"

/-- `Generator::generate_sum_type_enum` from `src/generator.rs` (union
mode): every variant name is rendered as a quoted string literal. -/
def generate_sum_type_enum (name : String) (variants : List String) : String :=
  "export type " ++ name ++ " ="
    ++ String.join (variants.enum.map (fun p =>
         (if p.1 == 0 then "\n    " else " |\n    ") ++ "\"" ++ p.2 ++ "\""))
    ++ ";\n"

/-- The stable by-name sort used by `sort_by(|a, b| a.name.cmp(&b.name))`.
Rust compares strings by bytes; UTF-8 byte order coincides with the
codepoint order `String.le` uses. -/
def sort_fields (fields : List TypescriptField) : List TypescriptField :=
  fields.mergeSort (fun a b => decide (a.name ≤ b.name))

/-- The stable by-name sort for trait methods. -/
def sort_methods (methods : List TypescriptMethod) : List TypescriptMethod :=
  methods.mergeSort (fun a b => decide (a.name ≤ b.name))

/-- `Generator::generate_type` from `src/generator.rs`. -/
def generate_type (o : GeneratorOptions) (t : TypescriptType) : String :=
  match t with
  | .Interface name fields doc =>
      write_doc doc ++ "export interface " ++ name ++ " \x7b\n"
        ++ String.join ((if o.sort_alphabetically then sort_fields fields else fields).map generate_field)
        ++ "\x7d\n"
  | .Enum name variants doc =>
      write_doc doc
        ++ (if o.generate_enums_as_sum_types then generate_sum_type_enum name variants
            else generate_enum name variants)
  | .Trait name methods doc =>
      write_doc doc ++ "export interface " ++ name ++ " \x7b\n"
        ++ String.join ((if o.sort_alphabetically then sort_methods methods else methods).map generate_method)
        ++ "\x7d\n"

/-- The preamble block written by `Generator::generate`. -/
def render_preamble (o : GeneratorOptions) : String :=
  match o.preamble with
  | some p => p ++ "\n"
  | none => ""

/-- The namespace opener written by `Generator::generate`. -/
def render_ns_open (o : GeneratorOptions) : String :=
  match o.ns with
  | some n => "export namespace " ++ n ++ " \x7b\n"
  | none => ""

/-- The namespace closer written by `Generator::generate`. -/
def render_ns_close (o : GeneratorOptions) : String :=
  match o.ns with
  | some _ => " \x7d\n"
  | none => ""

/-- `Generator::generate` from `src/generator.rs`, as a function of the
map's iteration sequence `types`: collect the key list (in iteration
order), sort it if requested, then render `types.get(name)` for each key
followed by a blank `writeln!`.  The `Vec<u8>` sink the facade supplies
never fails, so rendering is total. -/
def generate (types : List (String × TypescriptType)) (o : GeneratorOptions) : String :=
  let type_names := types.map Prod.fst
  let type_names := if o.sort_alphabetically then type_names.mergeSort (fun a b => decide (a ≤ b)) else type_names
  render_preamble o ++ render_ns_open o
    ++ String.join (type_names.filterMap (fun nm => (hm_get types nm).map (fun t => generate_type o t ++ "\n")))
    ++ render_ns_close o

/-! ### enums.rs: the enum value resolver (declared in `lib.rs` as
`pub mod enums`, but never invoked by the extractor/generator pipeline) -/

/-- Alias for `String` usable inside `EnumValue`, whose first constructor
shadows the name. -/
abbrev Str : Type := String

/-- `EnumValue` from `src/enums.rs`. -/
inductive EnumValue where
  | String (s : Str)
  | Number (n : Int)
  | Identifier (i : Str)
deriving DecidableEq

/-- `EnumValue::to_typescript` from `src/enums.rs`. -/
def EnumValue.to_typescript : EnumValue → Str
  | .String s => "\"" ++ s ++ "\""
  | .Number n => toString n
  | .Identifier i => i

/-- `ExtractedEnum` from `src/enums.rs`. -/
structure ExtractedEnum where
  name : String
  variants : List (String × Option EnumValue)
  doc : Option String
deriving DecidableEq

/-- The largest value of Rust's `i64`. -/
def i64_max : Nat := 2 ^ 63 - 1

/-- `lit_int.base10_parse::<i64>()`: a `syn` integer literal carries its
(nonnegative) digit value; parsing fails iff it exceeds `i64::MAX`. -/
def base10_parse_i64 (digits_value : Nat) : Except String Int :=
  if digits_value ≤ i64_max then .ok (Int.ofNat digits_value)
  else .error "number too large to fit in target type"

/-- `extract_variant_value` from `src/enums.rs`. -/
def extract_variant_value (variant : EnumVariant) : Except String (Option EnumValue) :=
  match variant.discriminant with
  | some e =>
    match e with
    | .litExpr (.strLit s) => .ok (some (.String s))
    | .litExpr (.intLit d) =>
        match base10_parse_i64 d with
        | .ok v => .ok (some (.Number v))
        | .error msg => .error msg
    | .litExpr .otherLit => .ok none
    | .pathExpr (some ident) => .ok (some (.Identifier ident))
    | .pathExpr none => .ok none
    | .otherExpr => .ok none
  | none => .ok none

/-- The variant loop of `enums.rs`'s `extract_enum`: each variant's value
is resolved with `?` (the first failure aborts) and the pair
`(variant_name, value)` is pushed. -/
def resolve_variants : List EnumVariant → Except String (List (String × Option EnumValue))
  | [] => .ok []
  | v :: rest =>
    match extract_variant_value v with
    | .ok value =>
      match resolve_variants rest with
      | .ok tail => .ok ((v.ident, value) :: tail)
      | .error e => .error e
    | .error e => .error e

/-- `extract_enum` from `src/enums.rs` (the resolver-aware extraction;
note this is distinct from `Bel.extract_enum`, the pipeline's
`Extractor::extract_enum`, which ignores discriminants). -/
def enums.extract_enum (item : ItemEnum) : Except String ExtractedEnum :=
  match resolve_variants item.variants with
  | .ok variants => .ok ⟨item.ident, variants, extract_doc item.attrs⟩
  | .error e => .error e

/-- `generate_typescript_enum` from `src/enums.rs`. -/
def generate_typescript_enum (e : ExtractedEnum) (as_sum_type : Bool) : String :=
  (match e.doc with
   | some d => "/**\n * " ++ d ++ "\n */\n"
   | none => "")
  ++ (if as_sum_type then
        "export type " ++ e.name ++ " ="
          ++ String.join (e.variants.enum.map (fun p =>
               (if p.1 == 0 then "\n    " else " |\n    ")
                 ++ (match p.2.2 with
                     | some val => val.to_typescript
                     | none => "\"" ++ p.2.1 ++ "\"")))
          ++ ";\n"
      else
        "export enum " ++ e.name ++ " \x7b\n"
          ++ String.join (e.variants.enum.map (fun p =>
               "    " ++ p.2.1
                 ++ (match p.2.2 with
                     | some val => " = " ++ val.to_typescript
                     | none => " = " ++ toString p.1)
                 ++ ",\n"))
          ++ "\x7d\n")

/-! ### lib.rs: the pipeline facade -/

/-- `extract_and_generate` from `src/lib.rs`: extract, then render the
resulting map into a `Vec<u8>` sink (which never fails; the generated
bytes are always valid UTF-8).  `hash_order` models the unspecified
iteration order of the extraction's `HashMap`: theorems constrain it
with `IsEnumOf`. -/
def extract_and_generate (parse : String → Except String SourceFile)
    (hash_order : List (String × TypescriptType) → List (String × TypescriptType))
    (source : String) (eo : ExtractOptions) (go : GeneratorOptions) :
    Except String String :=
  match Extractor.extract eo parse source with
  | .ok types => .ok (generate (hash_order types) go)
  | .error e => .error e

/-! ### Spec-side definitions (for refinement comparisons)

These two definitions follow the specification's words, not the source,
and exist only to be compared with the source-derived definitions. -/

/-- Spec-side reading of claim C5's optionality condition: the declared
type is the single-argument optional-wrapper generic, i.e. a path whose
last segment is `Option` applied to exactly one angle-bracketed
argument. -/
def is_single_argument_option_generic : RustType → Bool
  | .path segments =>
    match segments.getLast? with
    | some (.mk ident (.angleBracketed args)) => ident == "Option" && args.length == 1
    | _ => false
  | .otherShape => false

/-- Spec-side reading of claim C2's emission order: with the sort flag
off, the renderer would emit the declarations in the order they were
first inserted into the mapping (with each name's last-written content).
`last_write_wins` lists entries by first insertion of each key, so this
renders that insertion-ordered enumeration. -/
def insertion_order_render (history : List (String × TypescriptType))
    (o : GeneratorOptions) : String :=
  generate (last_write_wins history) o

/-! ### Concrete sample inputs used by witnesses and counterexamples -/

/-- A plain named type `T` (a one-segment path without arguments). -/
def plain_path (name : String) : RustType := .path [.mk name .noArgs]

/-- The generic type `name<inner>`. -/
def generic_path (name : String) (inner : RustType) : RustType :=
  .path [.mk name (.angleBracketed [.typeArg inner])]

/-- The enum `HttpStatus \x7b Ok = 200, NotFound = 404 \x7d`. -/
def http_status_enum : ItemEnum :=
  ⟨"HttpStatus",
   [⟨"Ok", .unitFields, some (.litExpr (.intLit 200)), []⟩,
    ⟨"NotFound", .unitFields, some (.litExpr (.intLit 404)), []⟩],
   []⟩

/-- A parse oracle whose every answer is the file containing just
`http_status_enum`. -/
def parse_http : String → Except String SourceFile :=
  fun _ => .ok ⟨[.enumItem http_status_enum]⟩

/-- Rendering options: ordinal enums, no namespace/preamble, no sort. -/
def ordinal_options : GeneratorOptions := ⟨none, none, false, false⟩

/-- Rendering options: union-type enums, no namespace/preamble, no sort. -/
def union_options : GeneratorOptions := ⟨none, none, true, false⟩

/-- The variant `Ok = 200` on its own. -/
def variant_ok_200 : EnumVariant :=
  ⟨"Ok", .unitFields, some (.litExpr (.intLit 200)), []⟩

/-- A variant whose discriminant literal `9223372036854775808` (2^63)
exceeds `i64::MAX`. -/
def variant_overflow : EnumVariant :=
  ⟨"Big", .unitFields, some (.litExpr (.intLit (2 ^ 63))), []⟩

/-- The enum `Overflowing \x7b Big = 9223372036854775808 \x7d`. -/
def overflow_enum : ItemEnum := ⟨"Overflowing", [variant_overflow], []⟩

/-- The trait method `fn say_hello(&self, name: String, msg: String) -> String`. -/
def say_hello_method : TraitItemFn :=
  ⟨"say_hello",
   [.receiver,
    .typed "name" (plain_path "String"),
    .typed "msg" (plain_path "String")],
   some (plain_path "String"),
   []⟩

/-- The field `x: Option` (the optional-wrapper path used with NO
arguments), which `syn` parses fine. -/
def bare_option_field : RustField := ⟨some "x", plain_path "Option", []⟩

/-- The struct `S \x7b x: Option \x7d`. -/
def bare_option_struct : ItemStruct := ⟨"S", [bare_option_field], []⟩

/-- Renaming of the declared (and discarded) parameter names of a
function signature's inputs. -/
def rename_args (f : String → String) (inputs : List FnArg) : List FnArg :=
  inputs.map (fun a =>
    match a with
    | .receiver => .receiver
    | .typed nm ty => .typed (f nm) ty)

/-- A variant with its payload removed. -/
def strip_payload (v : EnumVariant) : EnumVariant :=
  ⟨v.ident, .unitFields, v.discriminant, v.attrs⟩

/-- An enum with every variant's payload removed. -/
def strip_payloads (item : ItemEnum) : ItemEnum :=
  ⟨item.ident, item.variants.map strip_payload, item.attrs⟩

/-- Every name the `rust_to_typescript_type` table recognizes; any name
outside this list passes through unchanged. -/
def recognized_type_names : List String :=
  ["String", "str", "i8", "i16", "i32", "i64", "u8", "u16", "u32", "u64",
   "f32", "f64", "isize", "usize", "bool", "Vec", "Option"]

/-- The interface `Alpha` (no fields), used by the ordering
counterexample. -/
def alpha_decl : TypescriptType := .Interface "Alpha" [] none

/-- The interface `Zeta` (no fields), used by the ordering
counterexample. -/
def zeta_decl : TypescriptType := .Interface "Zeta" [] none

/-- An insert history: `Alpha` inserted first, then `Zeta`. -/
def alpha_zeta_history : List (String × TypescriptType) :=
  [("Alpha", alpha_decl), ("Zeta", zeta_decl)]

/-- A possible `HashMap` iteration order for `alpha_zeta_history` that
reverses the insertion order. -/
def zeta_alpha_seq : List (String × TypescriptType) :=
  [("Zeta", zeta_decl), ("Alpha", alpha_decl)]

/-- Two structs both named `Demo`, with different doc comments; used for
the last-write-wins claim. -/
def demo_v1 : ItemStruct := ⟨"Demo", [], [⟨some "doc", some "first version", ""⟩]⟩

/-- The second `Demo` declaration (the one that must win). -/
def demo_v2 : ItemStruct := ⟨"Demo", [], [⟨some "doc", some "second version", ""⟩]⟩

/-- A file declaring `Demo` twice. -/
def demo_twice_items : List Item := [.structItem demo_v1, .structItem demo_v2]

/-- A parse oracle that always fails the way `syn::parse_file` fails on
malformed input. -/
def parse_fail : String → Except String SourceFile :=
  fun _ => .error "expected item"

/-- A struct with two named fields, one `Option<String>` (optional) and
one `u32`, used by the interface-rendering witness. -/
def demo_struct : ItemStruct :=
  ⟨"Config",
   [⟨some "foo", generic_path "Option" (plain_path "String"), []⟩,
    ⟨some "bar_baz", plain_path "u32", []⟩],
   []⟩

/-! ## Helper lemmas -/

/-- Splitting a character list that contains no underscore yields the
single part equal to the whole list. -/
theorem split_underscore_of_no_underscore :
    ∀ (cs : List Char), '_' ∉ cs → split_underscore cs = [cs] := by
  intro cs h
  induction cs with
  | nil => rfl
  | cons c rest ih =>
    simp only [List.mem_cons, not_or] at h
    have hc : ¬ c = '_' := fun hc => h.1 hc.symm
    rw [split_underscore, ih h.2]
    simp [hc]

/-- The capitalising fold of `convert_field_name` skips empty parts:
filtering them out does not change the result. -/
theorem foldl_camel_append_filter :
    ∀ (parts : List (List Char)) (p0 : List Char),
      parts.foldl camel_append p0
        = (parts.filter (fun part => !part.isEmpty)).foldl camel_append p0 := by
  intro parts
  induction parts with
  | nil => intro p0; rfl
  | cons part t ih => intro p0; cases part <;> simp [camel_append, List.filter_cons, ih]

/-- Renaming declared parameter names does not change the extracted
parameter list, at any start index. -/
theorem extract_params_from_rename (f : String → String) :
    ∀ (inputs : List FnArg) (i : Nat),
      extract_params_from i (rename_args f inputs) = extract_params_from i inputs := by
  intro inputs
  induction inputs with
  | nil => intro i; rfl
  | cons a t ih =>
    intro i
    cases a with
    | receiver =>
      show extract_params_from (i + 1) (rename_args f t) = extract_params_from (i + 1) t
      exact ih (i + 1)
    | typed nm ty =>
      show (⟨"arg" ++ toString i, convert_type ty⟩ : TypescriptParam)
            :: extract_params_from (i + 1) (rename_args f t)
          = ⟨"arg" ++ toString i, convert_type ty⟩ :: extract_params_from (i + 1) t
      rw [ih (i + 1)]

/-- The names extracted from a run of typed (non-receiver) inputs are
`"arg"` plus consecutive indices starting at the enumeration index `i`. -/
theorem extract_params_from_typed (ps : List (String × RustType)) :
    ∀ (i : Nat),
      (extract_params_from i (ps.map (fun p => FnArg.typed p.1 p.2))).map (fun q => q.name)
        = (List.range ps.length).map (fun j => "arg" ++ toString (i + j)) := by
  induction ps with
  | nil => intro i; rfl
  | cons p t ih =>
    intro i
    simp only [List.map_cons, extract_params_from, List.length_cons,
      List.range_succ_eq_map, List.map_cons, List.map_map]
    rw [ih (i + 1)]
    have harith : ∀ j : Nat, i + 1 + j = i + (j + 1) := fun j => by omega
    simp [Function.comp, Nat.succ_eq_add_one, harith]

/-- If some variant's value resolution fails, the variant loop of
`enums.rs` cannot succeed. -/
theorem resolve_variants_error_of_mem :
    ∀ (l : List EnumVariant) (v : EnumVariant) (e : String), v ∈ l →
      extract_variant_value v = .error e →
      ∀ r, resolve_variants l ≠ .ok r := by
  intro l
  induction l with
  | nil => intro v e hv; cases hv
  | cons a t ih =>
    intro v e hv herr r
    rcases List.mem_cons.mp hv with h | h
    · subst h; simp [resolve_variants, herr]
    · rw [resolve_variants]
      cases ha : extract_variant_value a with
      | error e1 => simp
      | ok val =>
        cases ht : resolve_variants t with
        | error e1 => simp
        | ok tail => exact absurd ht (ih v e h herr tail)

/-- Unfolding `hm_get` at a matching head entry. -/
theorem hm_get_cons_self {α : Type} {p : String × α} {t : List (String × α)} {k : String}
    (h : p.1 = k) : hm_get (p :: t) k = some p.2 := by
  unfold hm_get
  rw [List.find?_cons_of_pos _ (by simp [h])]
  rfl

/-- Unfolding `hm_get` past a non-matching head entry. -/
theorem hm_get_cons_ne {α : Type} {p : String × α} {t : List (String × α)} {k : String}
    (h : ¬ p.1 = k) : hm_get (p :: t) k = hm_get t k := by
  unfold hm_get
  rw [List.find?_cons_of_neg _ (by simp [h])]

/-- Replacing the entries of key `k` does not affect lookups of another
key `q`. -/
theorem hm_get_map_replace {α : Type} (k : String) (v : α) (q : String) (hq : ¬ q = k) :
    ∀ (m : List (String × α)),
      hm_get (m.map (fun p => if p.1 == k then (k, v) else p)) q = hm_get m q := by
  intro m
  induction m with
  | nil => rfl
  | cons p t ih =>
    rw [List.map_cons]
    by_cases hp : p.1 = k
    · have hstep : (if p.1 == k then (k, v) else p) = (k, v) := by simp [hp]
      rw [hstep, hm_get_cons_ne (fun hh => hq hh.symm),
        hm_get_cons_ne (fun hh : p.1 = q => hq (hp ▸ hh).symm)]
      exact ih
    · have hstep : (if p.1 == k then (k, v) else p) = p := by simp [hp]
      rw [hstep]
      by_cases hpq : p.1 = q
      · rw [hm_get_cons_self hpq, hm_get_cons_self hpq]
      · rw [hm_get_cons_ne hpq, hm_get_cons_ne hpq]
        exact ih

/-- If key `k` is present, replacing its entries by `(k, v)` makes the
lookup of `k` return `v`. -/
theorem hm_get_map_replace_found {α : Type} (k : String) (v : α) :
    ∀ (m : List (String × α)), (m.any fun p => p.1 == k) = true →
      hm_get (m.map (fun p => if p.1 == k then (k, v) else p)) k = some v := by
  intro m
  induction m with
  | nil => intro h; cases h
  | cons p t ih =>
    intro hany
    rw [List.map_cons]
    by_cases hp : p.1 = k
    · have hstep : (if p.1 == k then (k, v) else p) = (k, v) := by simp [hp]
      rw [hstep, hm_get_cons_self rfl]
    · have hstep : (if p.1 == k then (k, v) else p) = p := by simp [hp]
      rw [hstep, hm_get_cons_ne hp]
      apply ih
      have hfalse : (p.1 == k) = false := by simp [hp]
      simpa [List.any_cons, hfalse] using hany

/-- `HashMap::insert` followed by `HashMap::get`: the inserted key now
maps to the new value, every other key is unchanged. -/
theorem hm_get_insert_lww {α : Type} (m : List (String × α)) (k : String) (v : α) (q : String) :
    hm_get (insert_lww m k v) q = if q = k then some v else hm_get m q := by
  unfold insert_lww
  by_cases hany : (m.any fun p => p.1 == k) = true
  · rw [if_pos hany]
    by_cases hq : q = k
    · subst hq
      rw [if_pos rfl]
      exact hm_get_map_replace_found q v m hany
    · rw [if_neg hq]
      exact hm_get_map_replace k v q hq m
  · rw [if_neg hany]
    rw [Bool.not_eq_true] at hany
    have hmk : m.find? (fun r => r.1 == k) = none := by
      rw [List.find?_eq_none]
      intro x hx
      have := List.any_eq_false.mp hany x hx
      simpa using this
    by_cases hq : q = k
    · subst hq
      rw [if_pos rfl]
      unfold hm_get
      rw [List.find?_append, hmk]
      simp [List.find?]
    · rw [if_neg hq]
      unfold hm_get
      rw [List.find?_append]
      have h2 : List.find? (fun r => r.1 == q) [(k, v)] = none := by
        have hne : (k == q) = false := by
          rw [beq_eq_false_iff_ne]
          exact fun h => hq h.symm
        simp [List.find?, hne]
      rw [h2, Option.or_none]

/-- Folding the insert loop over a history: a lookup in the result is the
last write of that key in the history, or the lookup in the initial
accumulator when the history never writes the key. -/
theorem hm_get_foldl {α : Type} :
    ∀ (h : List (String × α)) (acc : List (String × α)) (k : String),
      hm_get (h.foldl (fun m p => insert_lww m p.1 p.2) acc) k
        = ((h.reverse.find? (fun p => p.1 == k)).map Prod.snd).or (hm_get acc k) := by
  intro h
  induction h with
  | nil => intro acc k; simp
  | cons q t ih =>
    intro acc k
    rw [List.foldl_cons, ih, List.reverse_cons, List.find?_append]
    cases hA : t.reverse.find? (fun p => p.1 == k) with
    | some a => simp [Option.or]
    | none =>
      rw [hm_get_insert_lww]
      by_cases hk : q.1 = k
      · have hfind : List.find? (fun p => p.1 == k) [q] = some q := by
          simp [List.find?, hk]
        rw [hfind, if_pos hk.symm]
        simp [Option.or]
      · have hfind : List.find? (fun p => p.1 == k) [q] = none := by
          have hne : (q.1 == k) = false := by
            rw [beq_eq_false_iff_ne]
            exact hk
          simp [List.find?, hne]
        rw [hfind, if_neg (fun hh => hk hh.symm)]
        simp [Option.or]

/-- Looking a key up in the final `HashMap` state yields the value of the
LAST insert of that key in the history. -/
theorem hm_get_last_write_wins {α : Type} (h : List (String × α)) (k : String) :
    hm_get (last_write_wins h) k
      = (h.reverse.find? (fun p => p.1 == k)).map Prod.snd := by
  rw [last_write_wins, hm_get_foldl]
  simp [hm_get]

/-- The keys of an insert: unchanged if the key was present, appended
otherwise. -/
theorem keys_insert_lww {α : Type} (m : List (String × α)) (k : String) (v : α) :
    (insert_lww m k v).map Prod.fst
      = if (m.any fun p => p.1 == k) = true then m.map Prod.fst
        else m.map Prod.fst ++ [k] := by
  unfold insert_lww
  by_cases hany : (m.any fun p => p.1 == k) = true
  · rw [if_pos hany, if_pos hany, List.map_map]
    apply List.map_congr_left
    intro p hp
    by_cases hpk : p.1 = k
    · simp [Function.comp, hpk]
    · simp [Function.comp, hpk]
  · rw [if_neg hany, if_neg hany, List.map_append]
    rfl

/-- The final `HashMap` state has pairwise-distinct keys. -/
theorem keys_last_write_wins_nodup {α : Type} (h : List (String × α)) :
    ((last_write_wins h).map Prod.fst).Nodup := by
  suffices hgen : ∀ (acc : List (String × α)), (acc.map Prod.fst).Nodup →
      ((h.foldl (fun m p => insert_lww m p.1 p.2) acc).map Prod.fst).Nodup from
    hgen [] (by simp)
  induction h with
  | nil => intro acc hacc; simpa using hacc
  | cons q t ih =>
    intro acc hacc
    rw [List.foldl_cons]
    apply ih
    rw [keys_insert_lww]
    by_cases hany : (acc.any fun p => p.1 == q.1) = true
    · rw [if_pos hany]
      exact hacc
    · rw [if_neg hany]
      rw [Bool.not_eq_true] at hany
      have hnotin : q.1 ∉ acc.map Prod.fst := by
        intro hmem
        rcases List.mem_map.mp hmem with ⟨p, hp, hpk⟩
        have := List.any_eq_false.mp hany p hp
        simp [hpk] at this
      exact List.Nodup.append hacc (List.nodup_singleton _)
        (by simpa [List.disjoint_singleton] using hnotin)

/-- With pairwise-distinct keys, a lookup returns exactly the values
paired with the key in the list. -/
theorem hm_get_eq_some_iff {α : Type} :
    ∀ (l : List (String × α)), (l.map Prod.fst).Nodup → ∀ (k : String) (v : α),
      (hm_get l k = some v ↔ (k, v) ∈ l) := by
  intro l
  induction l with
  | nil => intro _ k v; simp [hm_get]
  | cons p t ih =>
    intro hnd k v
    rw [List.map_cons, List.nodup_cons] at hnd
    by_cases hp : p.1 = k
    · subst hp
      have hkt : (p.1, v) ∉ t := fun hw => hnd.1 (List.mem_map.mpr ⟨(p.1, v), hw, rfl⟩)
      rw [hm_get_cons_self rfl]
      constructor
      · intro hv
        have hv2 : p.2 = v := Option.some.inj hv
        rw [← hv2, Prod.mk.eta]
        exact List.mem_cons_self p t
      · intro hv
        rcases List.mem_cons.mp hv with h | h
        · have hv2 : v = p.2 := congrArg Prod.snd h
          rw [hv2]
        · exact absurd h hkt
    · have hne : (k, v) ≠ p := fun h => hp (congrArg Prod.fst h).symm
      rw [hm_get_cons_ne hp, List.mem_cons]
      constructor
      · intro h
        exact Or.inr ((ih hnd.2 k v).mp h)
      · rintro (h | h)
        · exact absurd h hne
        · exact (ih hnd.2 k v).mpr h

/-- Lookup is invariant under permutation when keys are distinct: any
two iteration orders of the same `HashMap` state answer `get` alike. -/
theorem hm_get_eq_of_perm {α : Type} {seq m : List (String × α)} (hp : seq.Perm m)
    (hnd : (m.map Prod.fst).Nodup) (k : String) : hm_get seq k = hm_get m k := by
  have hnd2 : (seq.map Prod.fst).Nodup := ((hp.map Prod.fst).nodup_iff).mpr hnd
  cases hs : hm_get seq k with
  | some v =>
    have hmem : (k, v) ∈ m := hp.mem_iff.mp ((hm_get_eq_some_iff seq hnd2 k v).mp hs)
    exact ((hm_get_eq_some_iff m hnd k v).mpr hmem).symm
  | none =>
    cases hm2 : hm_get m k with
    | none => rfl
    | some w =>
      have hmem : (k, w) ∈ seq := hp.mem_iff.mpr ((hm_get_eq_some_iff m hnd k w).mp hm2)
      rw [(hm_get_eq_some_iff seq hnd2 k w).mpr hmem] at hs
      cases hs

/-- With distinct keys, looking every key of the list up in the list
itself recovers exactly the values, in list order. -/
theorem filterMap_keys_hm_get {α β : Type} (g : α → β) :
    ∀ (types : List (String × α)), (types.map Prod.fst).Nodup →
      (types.map Prod.fst).filterMap (fun nm => (hm_get types nm).map g)
        = types.map (fun p => g p.2) := by
  intro types
  induction types with
  | nil => intro _; rfl
  | cons p t ih =>
    intro hnd
    rw [List.map_cons, List.nodup_cons] at hnd
    rw [List.map_cons, List.filterMap_cons, hm_get_cons_self rfl]
    have htail : (t.map Prod.fst).filterMap (fun nm => (hm_get (p :: t) nm).map g)
        = (t.map Prod.fst).filterMap (fun nm => (hm_get t nm).map g) := by
      apply List.filterMap_congr
      intro nm hm
      rw [hm_get_cons_ne (fun hh => absurd (hh ▸ hm) hnd.1)]
    simp only [Option.map_some']
    rw [htail, ih hnd.2, List.map_cons]

/-- `Generator::generate` with the sort flag off renders one block per
entry of its iteration sequence, in sequence order, between the fixed
preamble/namespace pieces; it is a pure function of the sequence and the
options. -/
theorem generate_eq_join_blocks (types : List (String × TypescriptType))
    (o : GeneratorOptions) (hnd : (types.map Prod.fst).Nodup)
    (hs : o.sort_alphabetically = false) :
    generate types o
      = render_preamble o ++ render_ns_open o
        ++ String.join (types.map (fun p => generate_type o p.2 ++ "\n"))
        ++ render_ns_close o := by
  unfold generate
  simp only [hs, Bool.false_eq_true, if_false]
  rw [filterMap_keys_hm_get (fun t => generate_type o t ++ "\n") types hnd]

/-- When every field of a struct is named, extraction produces exactly
one `TypescriptField` per declared field. -/
theorem length_filterMap_named :
    ∀ (fs : List RustField), (∀ f ∈ fs, f.ident.isSome) →
      (fs.filterMap (fun f => f.ident.map (extract_field f))).length = fs.length := by
  intro fs
  induction fs with
  | nil => intro _; rfl
  | cons f t ih =>
    intro h
    have hf := h f (List.mem_cons_self f t)
    cases hid : f.ident with
    | none => rw [hid] at hf; cases hf
    | some nm =>
      rw [List.filterMap_cons, hid]
      simp only [Option.map_some']
      rw [List.length_cons, List.length_cons, ih (fun g hg => h g (List.mem_cons_of_mem f hg))]

/-! ## Claim theorems -/

/-- C1 (code bug): for the enum `HttpStatus \x7b Ok = 200, NotFound = 404 \x7d`,
the actual pipeline renders `Ok = 0` / `NotFound = 1` in ordinal mode and
the quoted names in union mode, because `Extractor::extract_enum` keeps
only variant names; the repository's own enum value resolver
(`enums.rs`), which the pipeline never calls, does produce `Ok = 200`,
`NotFound = 404`, and the bare literals `200`/`404`, as the claim
requires. -/
theorem C1_pipeline_drops_discriminants :
    extract_and_generate parse_http last_write_wins "enum" ExtractOptions.default' ordinal_options
      = .ok "export enum HttpStatus \x7b\n    Ok = 0,\n    NotFound = 1,\n\x7d\n\n"
  ∧ extract_and_generate parse_http last_write_wins "enum" ExtractOptions.default' union_options
      = .ok "export type HttpStatus =\n    \"Ok\" |\n    \"NotFound\";\n\n"
  ∧ enums.extract_enum http_status_enum
      = .ok ⟨"HttpStatus", [("Ok", some (.Number 200)), ("NotFound", some (.Number 404))], none⟩
  ∧ generate_typescript_enum ⟨"HttpStatus", [("Ok", some (.Number 200)), ("NotFound", some (.Number 404))], none⟩ false
      = "export enum HttpStatus \x7b\n    Ok = 200,\n    NotFound = 404,\n\x7d\n"
  ∧ generate_typescript_enum ⟨"HttpStatus", [("Ok", some (.Number 200)), ("NotFound", some (.Number 404))], none⟩ true
      = "export type HttpStatus =\n    200 |\n    404;\n" := by
  refine ⟨?_, ?_, ?_, ?_, ?_⟩ <;> decide

/-- C3 counterexample: the trait method
`fn say_hello(&self, name: String, msg: String) -> String` does NOT get
parameters named `arg0`, `arg1` — the enumeration index counts the
receiver, so they are named `arg1`, `arg2`. -/
theorem C3_counterexample :
    ¬ ((extract_method say_hello_method).params.map (fun p => p.name) = ["arg0", "arg1"])
  ∧ (extract_method say_hello_method).params.map (fun p => p.name) = ["arg1", "arg2"] := by
  have h : (extract_method say_hello_method).params.map (fun p => p.name) = ["arg1", "arg2"] := by
    simp [extract_method, say_hello_method, extract_params, extract_params_from, convert_type,
      rust_to_typescript_type, plain_path]
    decide
  exact ⟨by rw [h]; decide, h⟩

/-- C3 (amended): each non-receiver parameter is named `"arg"` + its
zero-based index among ALL signature inputs, the receiver included — so
after a receiver, the parameters of a two-parameter method are named
`arg1` and `arg2` — and the declared parameter names are discarded
(renaming them never changes the extraction). -/
theorem C3_receiver_counted_arg_names (f : String → String) (inputs : List FnArg)
    (ps : List (String × RustType)) :
    extract_params (rename_args f inputs) = extract_params inputs
  ∧ (extract_params (.receiver :: ps.map (fun p => FnArg.typed p.1 p.2))).map (fun q => q.name)
      = (List.range ps.length).map (fun j => "arg" ++ toString (j + 1))
  ∧ generate_method (extract_method say_hello_method)
      = "    say_hello(arg1: string, arg2: string): string\n" := by
  refine ⟨extract_params_from_rename f inputs 0, ?_, ?_⟩
  · show (extract_params_from 1 (ps.map (fun p => FnArg.typed p.1 p.2))).map (fun q => q.name) = _
    rw [extract_params_from_typed ps 1]
    exact List.map_congr_left fun j hj => by rw [Nat.add_comm]
  · simp [extract_method, say_hello_method, extract_params, extract_params_from, convert_type,
      rust_to_typescript_type, plain_path, generate_method, write_doc, extract_doc]
    decide

/-- C4: an integer-literal discriminant that fits `i64` resolves to the
corresponding `Number` value; one that does not fit makes
`extract_variant_value` fail, and with it the whole enum extraction of
`enums.rs` — no `ExtractedEnum` is produced. -/
theorem C4_integer_discriminant_range (v : EnumVariant) (d : Nat)
    (hd : v.discriminant = some (.litExpr (.intLit d))) :
    (d ≤ i64_max → extract_variant_value v = .ok (some (.Number (Int.ofNat d))))
  ∧ (i64_max < d →
       extract_variant_value v = .error "number too large to fit in target type"
     ∧ ∀ (item : ItemEnum), v ∈ item.variants → ∀ r, enums.extract_enum item ≠ .ok r) := by
  refine ⟨?_, ?_⟩
  · intro hle
    simp [extract_variant_value, hd, base10_parse_i64, hle]
  · intro hgt
    have herr : extract_variant_value v = .error "number too large to fit in target type" := by
      simp [extract_variant_value, hd, base10_parse_i64, Nat.not_le.mpr hgt]
    refine ⟨herr, ?_⟩
    intro item hv r hok
    rw [enums.extract_enum] at hok
    cases hres : resolve_variants item.variants with
    | error e1 => rw [hres] at hok; cases hok
    | ok vars => exact resolve_variants_error_of_mem item.variants v _ hv herr vars hres

/-- C4 witness: `Ok = 200` resolves to `Number 200`; the discriminant
`2^63` (one past `i64::MAX`) makes the enum extraction of `enums.rs`
fail. -/
theorem C4_witness :
    extract_variant_value variant_ok_200 = .ok (some (.Number 200))
  ∧ (enums.extract_enum overflow_enum).isOk = false := by
  refine ⟨(C4_integer_discriminant_range variant_ok_200 200 rfl).1 (by decide), ?_⟩
  cases h : enums.extract_enum overflow_enum with
  | ok r =>
    exact absurd h
      (((C4_integer_discriminant_range variant_overflow (2 ^ 63) rfl).2 (by decide)).2
        overflow_enum (List.Mem.head _) r)
  | error e => rfl

/-- C6: `Vec<String>` resolves to `string[]`, `Vec<Vec<f64>>` to
`number[][]`; `String`/`str` resolve to `string`, every integer and
float numeric type to `number`, `bool` to `boolean`, and any name
outside the fixed table passes through unchanged. -/
theorem C6_type_resolution :
    convert_type (generic_path "Vec" (plain_path "String")) = "string[]"
  ∧ convert_type (generic_path "Vec" (generic_path "Vec" (plain_path "f64"))) = "number[][]"
  ∧ (∀ nm, nm = "String" ∨ nm = "str" → convert_type (plain_path nm) = "string")
  ∧ (∀ nm ∈ (["i8", "i16", "i32", "i64", "u8", "u16", "u32", "u64", "f32", "f64", "isize", "usize"] : List String),
       convert_type (plain_path nm) = "number")
  ∧ convert_type (plain_path "bool") = "boolean"
  ∧ (∀ nm, nm ∉ recognized_type_names → convert_type (plain_path nm) = nm) := by
  refine ⟨?_, ?_, ?_, ?_, ?_, ?_⟩
  · simp [generic_path, plain_path, convert_type, rust_to_typescript_type]
  · simp [generic_path, plain_path, convert_type, rust_to_typescript_type]
  · rintro nm (rfl | rfl) <;> simp [plain_path, convert_type, rust_to_typescript_type]
  · intro nm h
    simp only [List.mem_cons, List.not_mem_nil, or_false] at h
    rcases h with rfl | rfl | rfl | rfl | rfl | rfl | rfl | rfl | rfl | rfl | rfl | rfl <;>
      simp [plain_path, convert_type, rust_to_typescript_type]
  · simp [plain_path, convert_type, rust_to_typescript_type]
  · intro nm h
    simp only [plain_path, convert_type]
    rw [rust_to_typescript_type]
    split_ifs with h1 h2 h3 h4 h5 <;> simp_all [recognized_type_names]

/-- C6 witness: the quantified table cases evaluated at `i32`, at `str`,
and at the unrecognized name `Custom`. -/
theorem C6_witness :
    ("i32" ∈ (["i8", "i16", "i32", "i64", "u8", "u16", "u32", "u64", "f32", "f64", "isize", "usize"] : List String)
      ∧ convert_type (plain_path "i32") = "number")
  ∧ (("str" = "String" ∨ "str" = "str") ∧ convert_type (plain_path "str") = "string")
  ∧ ("Custom" ∉ recognized_type_names ∧ convert_type (plain_path "Custom") = "Custom") :=
  ⟨⟨by decide, C6_type_resolution.2.2.2.1 "i32" (by decide)⟩,
   ⟨by decide, C6_type_resolution.2.2.1 "str" (by decide)⟩,
   ⟨by decide, C6_type_resolution.2.2.2.2.2 "Custom" (by decide)⟩⟩

/-- C8: when the parse oracle rejects the source text, extraction
returns exactly that error (no partial mapping) and the whole pipeline
returns it too (no output). -/
theorem C8_parse_failure_aborts (parse : String → Except String SourceFile)
    (hash_order : List (String × TypescriptType) → List (String × TypescriptType))
    (source e : String) (eo : ExtractOptions) (go : GeneratorOptions)
    (hp : parse source = .error e) :
    Extractor.extract eo parse source = .error e
  ∧ extract_and_generate parse hash_order source eo go = .error e := by
  have h1 : Extractor.extract eo parse source = .error e := by
    simp [Extractor.extract, hp]
  exact ⟨h1, by simp [extract_and_generate, h1]⟩

/-- C8 witness: a concrete failing oracle propagates its error through
extraction and the facade. -/
theorem C8_witness :
    parse_fail "fn" = .error "expected item"
  ∧ (Extractor.extract ExtractOptions.default' parse_fail "fn" = .error "expected item"
     ∧ extract_and_generate parse_fail last_write_wins "fn" ExtractOptions.default'
         GeneratorOptions.default' = .error "expected item") :=
  ⟨rfl, C8_parse_failure_aborts parse_fail last_write_wins "fn" "expected item"
    ExtractOptions.default' GeneratorOptions.default' rfl⟩

/-- C9: field-name translation returns names without underscores
unchanged (hence is idempotent on them), maps `foo_bar_baz` to exactly
`fooBarBaz`, and its capitalising fold skips empty parts without
inserting a capital. -/
theorem C9_field_name_translation (name : String) (p0 : List Char)
    (parts : List (List Char)) (h : '_' ∉ name.toList) :
    convert_field_name name = name
  ∧ convert_field_name (convert_field_name name) = convert_field_name name
  ∧ convert_field_name "foo_bar_baz" = "fooBarBaz"
  ∧ parts.foldl camel_append p0
      = (parts.filter (fun part => !part.isEmpty)).foldl camel_append p0 := by
  have h1 : convert_field_name name = name := by
    rw [convert_field_name, split_underscore_of_no_underscore _ h]
  exact ⟨h1, by rw [h1, h1], by decide, foldl_camel_append_filter parts p0⟩

/-- C9 witness: the theorem applied at the underscore-free name `hello`
and a concrete fold instance with an empty part. -/
theorem C9_witness :
    ('_' ∉ "hello".toList)
  ∧ (convert_field_name "hello" = "hello"
     ∧ convert_field_name (convert_field_name "hello") = convert_field_name "hello"
     ∧ convert_field_name "foo_bar_baz" = "fooBarBaz"
     ∧ [['a'], []].foldl camel_append ['x']
         = ([['a'], []].filter (fun part => !part.isEmpty)).foldl camel_append ['x']) :=
  ⟨by decide, C9_field_name_translation "hello" ['x'] [['a'], []] (by decide)⟩

/-- C10: the pipeline's enum extraction records only variant names —
stripping every payload changes nothing — and therefore a variant with a
payload renders exactly like a payload-free one in both modes. -/
theorem C10_payloads_discarded (item : ItemEnum) (o : GeneratorOptions) :
    extract_enum item = extract_enum (strip_payloads item)
  ∧ (extract_enum item).2
      = .Enum item.ident (item.variants.map (fun v => v.ident)) (extract_doc item.attrs)
  ∧ generate_type o (extract_enum item).2
      = generate_type o (extract_enum (strip_payloads item)).2 := by
  have h1 : extract_enum item = extract_enum (strip_payloads item) := by
    simp [extract_enum, strip_payloads, strip_payload, List.map_map, Function.comp]
  exact ⟨h1, rfl, by rw [h1]⟩


/-- C2 counterexample: the mapping is a `std::collections::HashMap`,
whose iteration order is unspecified; for the history that inserts
`Alpha` then `Zeta`, the iteration order `[Zeta, Alpha]` is a legal
enumeration of the resulting map, and rendering it (sort off) differs
from the insertion-ordered render — so the renderer does not emit
declarations in insertion order. -/
theorem C2_counterexample :
    IsEnumOf zeta_alpha_seq alpha_zeta_history
  ∧ ordinal_options.sort_alphabetically = false
  ∧ generate zeta_alpha_seq ordinal_options
      ≠ insertion_order_render alpha_zeta_history ordinal_options := by
  refine ⟨?_, rfl, ?_⟩
  · unfold IsEnumOf
    decide
  · unfold insertion_order_render
    decide

/-- C2 (amended): with the sort flag off the renderer emits exactly one
block per mapping entry, in the mapping's (unspecified) iteration order
rather than insertion order, and the output is a deterministic function
of that iteration sequence and the options. -/
theorem C2_render_follows_iteration_order (types : List (String × TypescriptType))
    (o : GeneratorOptions) (hnd : (types.map Prod.fst).Nodup)
    (hs : o.sort_alphabetically = false) :
    generate types o
      = render_preamble o ++ render_ns_open o
        ++ String.join (types.map (fun p => generate_type o p.2 ++ "\n"))
        ++ render_ns_close o :=
  generate_eq_join_blocks types o hnd hs

/-- C2 witness: the amended order statement evaluated on the two-entry
iteration sequence `[Zeta, Alpha]`. -/
theorem C2_witness :
    ((zeta_alpha_seq.map Prod.fst).Nodup)
  ∧ ordinal_options.sort_alphabetically = false
  ∧ generate zeta_alpha_seq ordinal_options
      = render_preamble ordinal_options ++ render_ns_open ordinal_options
        ++ String.join (zeta_alpha_seq.map (fun p => generate_type ordinal_options p.2 ++ "\n"))
        ++ render_ns_close ordinal_options :=
  ⟨by decide, rfl, C2_render_follows_iteration_order zeta_alpha_seq ordinal_options (by decide) rfl⟩

/-- C5 counterexample: for the field `x: Option` (the optional wrapper
used with no type arguments) the extractor marks the field optional,
although the declared type is NOT the single-argument optional-wrapper
generic and no skip-if-absent annotation is attached — the claim's
"iff" fails in the left-to-right direction. -/
theorem C5_counterexample :
    is_optional_field bare_option_field = true
  ∧ is_single_argument_option_generic bare_option_field.ty = false
  ∧ has_skip_serializing_attr bare_option_field.attrs = false
  ∧ (extract_field bare_option_field "x").optional = true := by
  refine ⟨?_, ?_, ?_, ?_⟩ <;> decide

/-- C5 (amended): for a struct whose N fields are all named, extraction
yields exactly N fields, the rendered interface (sort off) contains
exactly one field line per extracted field in order, and a field is
marked optional iff its declared type is a path whose LAST SEGMENT is
named `Option` (the argument count is not inspected) or a serde
annotation's debug text contains `skip_serializing_if`. -/
theorem C5_interface_field_lines (item : ItemStruct) (o : GeneratorOptions)
    (hnamed : ∀ f ∈ item.fields, f.ident.isSome)
    (hs : o.sort_alphabetically = false) :
    (extract_struct item).2
      = .Interface item.ident
          (item.fields.filterMap (fun f => f.ident.map (extract_field f)))
          (extract_doc item.attrs)
  ∧ (item.fields.filterMap (fun f => f.ident.map (extract_field f))).length
      = item.fields.length
  ∧ generate_type o ((extract_struct item).2)
      = write_doc (extract_doc item.attrs) ++ "export interface " ++ item.ident ++ " \x7b\n"
        ++ String.join ((item.fields.filterMap (fun f => f.ident.map (extract_field f))).map
             (fun fl => write_doc fl.doc ++ field_line fl))
        ++ "\x7d\n"
  ∧ ∀ f ∈ item.fields, ∀ nm, f.ident = some nm →
      (extract_field f nm).optional
        = (is_option_path f.ty || has_skip_serializing_attr f.attrs) := by
  refine ⟨rfl, length_filterMap_named item.fields hnamed, ?_, fun f hf nm hnm => rfl⟩
  show generate_type o (.Interface item.ident _ _) = _
  simp only [generate_type, hs, Bool.false_eq_true, if_false]
  rfl

/-- C5 witness: the amended statement applied to a two-field struct with
an `Option<String>` field and a `u32` field. -/
theorem C5_witness :
    demo_struct.fields.all (fun f => f.ident.isSome) = true
  ∧ ordinal_options.sort_alphabetically = false
  ∧ (extract_struct demo_struct).2
      = .Interface demo_struct.ident
          (demo_struct.fields.filterMap (fun f => f.ident.map (extract_field f)))
          (extract_doc demo_struct.attrs)
  ∧ (demo_struct.fields.filterMap (fun f => f.ident.map (extract_field f))).length
      = demo_struct.fields.length
  ∧ generate_type ordinal_options ((extract_struct demo_struct).2)
      = write_doc (extract_doc demo_struct.attrs) ++ "export interface " ++ demo_struct.ident ++ " \x7b\n"
        ++ String.join ((demo_struct.fields.filterMap (fun f => f.ident.map (extract_field f))).map
             (fun fl => write_doc fl.doc ++ field_line fl))
        ++ "\x7d\n" :=
  ⟨by decide, rfl,
   (C5_interface_field_lines demo_struct ordinal_options (by decide) rfl).1,
   (C5_interface_field_lines demo_struct ordinal_options (by decide) rfl).2.1,
   (C5_interface_field_lines demo_struct ordinal_options (by decide) rfl).2.2.1⟩

/-- C7: if a file's extraction history writes the key `k` at least
twice, then in the final mapping `k` holds the LAST declaration's
content, every legal iteration order of that mapping lists `k` exactly
once, and the sort-off render emits exactly one block per mapping entry
— so the output has exactly one block for `k`, with the later
declaration's content. -/
theorem C7_redeclaration_last_write_wins (items : List Item) (k : String)
    (seq : List (String × TypescriptType)) (o : GeneratorOptions)
    (htwice : 2 ≤ ((extract_items items).filter (fun p => p.1 == k)).length)
    (henum : IsEnumOf seq (extract_items items))
    (hs : o.sort_alphabetically = false) :
    hm_get seq k
      = ((extract_items items).reverse.find? (fun p => p.1 == k)).map Prod.snd
  ∧ (seq.map Prod.fst).count k = 1
  ∧ generate seq o
      = render_preamble o ++ render_ns_open o
        ++ String.join (seq.map (fun p => generate_type o p.2 ++ "\n"))
        ++ render_ns_close o := by
  have hlwwnd := keys_last_write_wins_nodup (extract_items items)
  have hseqnd : (seq.map Prod.fst).Nodup := ((henum.map Prod.fst).nodup_iff).mpr hlwwnd
  have hget : hm_get seq k
      = ((extract_items items).reverse.find? (fun p => p.1 == k)).map Prod.snd := by
    rw [hm_get_eq_of_perm henum hlwwnd k, hm_get_last_write_wins]
  refine ⟨hget, ?_, generate_eq_join_blocks seq o hseqnd hs⟩
  have hpos : 0 < ((extract_items items).filter (fun p => p.1 == k)).length :=
    Nat.lt_of_lt_of_le (by norm_num) htwice
  obtain ⟨p, hpmem⟩ := List.exists_mem_of_length_pos hpos
  have hp2 := List.mem_filter.mp hpmem
  have hfind : ((extract_items items).reverse.find? (fun p => p.1 == k)).isSome := by
    rw [List.find?_isSome]
    exact ⟨p, List.mem_reverse.mpr hp2.1, hp2.2⟩
  cases ha : (extract_items items).reverse.find? (fun p => p.1 == k) with
  | none => rw [ha] at hfind; cases hfind
  | some a =>
    have hsome : hm_get seq k = some a.2 := by rw [hget, ha]; rfl
    have hmem : (k, a.2) ∈ seq := (hm_get_eq_some_iff seq hseqnd k a.2).mp hsome
    have hkk : k ∈ seq.map Prod.fst := List.mem_map.mpr ⟨(k, a.2), hmem, rfl⟩
    exact List.count_eq_one_of_mem hseqnd hkk

/-- C7 witness: the file declaring `Demo` twice — the final mapping
holds the second declaration's content (doc `second version`), its
canonical enumeration lists `Demo` once, and the render emits one block
per entry. -/
theorem C7_witness :
    2 ≤ ((extract_items demo_twice_items).filter (fun p => p.1 == "Demo")).length
  ∧ IsEnumOf (last_write_wins (extract_items demo_twice_items)) (extract_items demo_twice_items)
  ∧ ordinal_options.sort_alphabetically = false
  ∧ hm_get (last_write_wins (extract_items demo_twice_items)) "Demo"
      = ((extract_items demo_twice_items).reverse.find? (fun p => p.1 == "Demo")).map Prod.snd
  ∧ ((last_write_wins (extract_items demo_twice_items)).map Prod.fst).count "Demo" = 1
  ∧ generate (last_write_wins (extract_items demo_twice_items)) ordinal_options
      = render_preamble ordinal_options ++ render_ns_open ordinal_options
        ++ String.join ((last_write_wins (extract_items demo_twice_items)).map
             (fun p => generate_type ordinal_options p.2 ++ "\n"))
        ++ render_ns_close ordinal_options
  ∧ hm_get (last_write_wins (extract_items demo_twice_items)) "Demo"
      = some (.Interface "Demo" [] (some "second version")) := by
  have hmain := C7_redeclaration_last_write_wins demo_twice_items "Demo"
    (last_write_wins (extract_items demo_twice_items)) ordinal_options
    (by decide) (List.Perm.refl _) rfl
  exact ⟨by decide, List.Perm.refl _, rfl, hmain.1, hmain.2.1, hmain.2.2, by decide⟩

end Bel
